import Mathlib

deriving instance DecidableEq for Except

/-!
# Verification of the studio-tech Companion module core

A shallow embedding of the device control protocol engine of the
`companion-module-studio-tech` repository: the packet codec and value
encoder of `src/stcontroller.ts`, the schema registry and action/feedback
table builder of `src/build-commands.ts`, and the discovery loop of
`src/stcontroller.ts`, together with theorems settling the specification
claims about them.

JavaScript numbers appearing in the embedded fragments are non-negative
integers in every reachable call, so they are modelled as `Nat`, with the
source's bit masks (`& 0xff`, `>> 16`, …) carried over literally as
`&&&`/`>>>`.
-/

set_option maxRecDepth 8192

namespace StudioTech

/-- The shapes a JavaScript value reaching `buildValueBytes` can take:
booleans, (non-negative integer) numbers, arrays of numbers, and the
remaining shapes (`null`, `undefined`, strings) that the encoder rejects. -/
inductive JSValue where
  | bool (b : Bool)
  | num (n : Nat)
  | arr (ns : List Nat)
  | str (s : String)
  | null
  | undef
  deriving DecidableEq, Repr

/-- `StController.buildValueBytes` (stcontroller.ts lines 154-169):
booleans to one byte, arrays element-wise masked to 8 bits, numbers above
`0xff` split into three bytes (24-bit RGB) most-significant first, other
numbers to one masked byte; every other shape throws
`Unsupported value type for STcontroller`. -/
def buildValueBytes : JSValue → Except String (List Nat)
  | .bool b => .ok [if b then 1 else 0]
  | .arr ns => .ok (ns.map (fun v => v &&& 0xff))
  | .num v =>
      if v > 0xff then
        .ok [(v >>> 16) &&& 0xff, (v >>> 8) &&& 0xff, v &&& 0xff]
      else
        .ok [v &&& 0xff]
  | _ => .error "Unsupported value type for STcontroller"

/-- One iteration of the inner bit loop of `StController.crc8DvbS2`
(stcontroller.ts line 205). -/
def crc8Bit (crc : Nat) : Nat :=
  if crc &&& 0x80 ≠ 0 then ((crc <<< 1) ^^^ 0xd5) &&& 0xff else (crc <<< 1) &&& 0xff

/-- `StController.crc8DvbS2` (stcontroller.ts lines 200-209): accumulator
starts at 0; each data byte is XORed in and then the bit step runs eight
times (the `for (let i = 0; i < 8; i++)` loop). -/
def crc8DvbS2 (data : List Nat) : Nat :=
  data.foldl (fun crc b => (List.range 8).foldl (fun c _ => crc8Bit c) (crc ^^^ b)) 0

/-- Modelled from the spec: the reference CRC-8/DVB-S2 definition, written
from the specification's words — "initial value 0x00, for each input byte
XOR it into the accumulator then perform 8 MSB-first steps (if bit 7 is
set, shift left and XOR polynomial 0xD5, else shift left, always masking
to 8 bits)". Used only to be compared against `crc8DvbS2`. -/
def crc8RefStep (c : Nat) : Nat :=
  if Nat.testBit c 7 then ((c <<< 1) ^^^ 0xd5) % 256 else (c <<< 1) % 256

/-- Modelled from the spec: eight MSB-first reference steps. -/
def crc8RefByte (c : Nat) : Nat :=
  crc8RefStep (crc8RefStep (crc8RefStep (crc8RefStep
    (crc8RefStep (crc8RefStep (crc8RefStep (crc8RefStep c)))))))

/-- Modelled from the spec: the reference CRC-8/DVB-S2 over a byte list. -/
def crc8Ref : List Nat → Nat
  | bs => go 0 bs
where
  go (acc : Nat) : List Nat → Nat
    | [] => acc
    | b :: rest => go (crc8RefByte (acc ^^^ b)) rest

/-- `StController.buildHeader` (stcontroller.ts lines 171-198): the fixed
24-byte preamble whose fourth byte is the low byte of `totalLength`. -/
def buildHeader (totalLength : Nat) : List Nat :=
  [0xff, 0xff, 0x00, totalLength &&& 0xff, 0x07, 0xe1, 0x00, 0x00,
   0x90, 0xb1, 0x1c, 0x5b, 0xd2, 0x85, 0x00, 0x00,
   0x53, 0x74, 0x75, 0x64, 0x69, 0x6f, 0x2d, 0x54]

/-- The data block of `sendAwaitAck` (stcontroller.ts lines 93-95):
`[settingId & 0xff]` when a setting id is given, followed by the value
bytes when a value is given. -/
def dataBlockOf (settingId : Option Nat) (value : Option JSValue) :
    Except String (List Nat) := do
  let base := match settingId with
    | some s => [s &&& 0xff]
    | none => []
  match value with
  | some v => return base ++ (← buildValueBytes v)
  | none => return base

/-- The length byte plus data block written at stcontroller.ts lines
101-102: `[dataBlock.length, ...dataBlock]`. This is the "length+data
portion" of the packet body. -/
def lenAndData (settingId : Option Nat) (value : Option JSValue) :
    Except String (List Nat) := do
  let dataBlock ← dataBlockOf settingId value
  return dataBlock.length :: dataBlock

/-- The payload body assembled by `sendAwaitAck` (stcontroller.ts lines
97-102). `CMD_MIC_PRE_BUS` is imported from `types.ts` but its defining
value is not part of the sources at hand, so the body is parametrised over
it (`cmdMicPreBus`). -/
def payloadBodyOf (cmdMicPreBus cmdId : Nat) (settingId : Option Nat)
    (value : Option JSValue) (addLen : Bool) : Except String (List Nat) := do
  let dataBlock ← dataBlockOf settingId value
  let payloadBody := [0x5a, cmdId &&& 0xff]
  let payloadBody := if cmdId = cmdMicPreBus then payloadBody ++ [0x00] else payloadBody
  let payloadBody := if addLen then payloadBody ++ [dataBlock.length] else payloadBody
  return payloadBody ++ dataBlock

/-- The payload body with its CRC trailer (stcontroller.ts lines 107-108). -/
def payloadWithCrcOf (cmdMicPreBus cmdId : Nat) (settingId : Option Nat)
    (value : Option JSValue) (addLen : Bool) : Except String (List Nat) := do
  let body ← payloadBodyOf cmdMicPreBus cmdId settingId value addLen
  return body ++ [crc8DvbS2 body]

/-- The full packet sent by `sendAwaitAck` (stcontroller.ts lines
114-118): the 24-byte header for `24 + payloadWithCrc.length`, followed by
the payload with CRC. -/
def packetOf (cmdMicPreBus cmdId : Nat) (settingId : Option Nat)
    (value : Option JSValue) (addLen : Bool) : Except String (List Nat) := do
  let payloadWithCrc ← payloadWithCrcOf cmdMicPreBus cmdId settingId value addLen
  return buildHeader (24 + payloadWithCrc.length) ++ payloadWithCrc

/-! ## JavaScript object semantics

`out[key] = value` on a plain object replaces the value in place when the
key exists and appends a new own property otherwise; `Object.values` and
`Object.entries` enumerate own properties in insertion order. Objects are
modelled as association lists in insertion order. -/

/-- JS property assignment `m[k] = v`: replace in place or append. -/
def recordSet (m : List (String × α)) (k : String) (v : α) : List (String × α) :=
  match m with
  | [] => [(k, v)]
  | (k', v') :: rest => if k' = k then (k', v) :: rest else (k', v') :: recordSet rest k v

/-- JS property read `m[k]`. -/
def recordGet (m : List (String × α)) (k : String) : Option α :=
  match m with
  | [] => none
  | (k', v') :: rest => if k' = k then some v' else recordGet rest k

/-- The keys of a JS object, in insertion order. -/
def recordKeys (m : List (String × α)) : List String :=
  m.map Prod.fst

/-! ## Schema registry and table builder (build-commands.ts) -/

/-- A `{id, label}` choice of a dropdown parameter. -/
structure Choice where
  id : JSValue
  label : String
  deriving DecidableEq, Repr

/-- One entry of a schema's `actions` array, as `buildActions` reads it:
a `UiSetting` extended with `cmd_id` and `id` (build-commands.ts line 50). -/
structure UiAction where
  name : String
  type : String
  label : String
  dflt : Option JSValue
  tooltip : Option String
  choices : Option (List Choice)
  min : Option Nat
  max : Option Nat
  step : Option Nat
  cmd_id : Nat
  id : Nat
  deriving DecidableEq, Repr

/-- The parsed JSON of one schema file, with the fields the registry and
builder read; `model` and `actions` may be absent (`undefined`). -/
structure UiSchema where
  model : Option String
  actions : Option (List UiAction)
  deriving DecidableEq, Repr

/-- The property key JS derives for `out[j.model]`: the model string, or
the string "undefined" when the `model` field is absent. -/
def jsKey : Option String → String
  | some s => s
  | none => "undefined"

/-- `String.prototype.endsWith`, on the underlying character lists (the
built-in `String.endsWith` is extensionally the same but does not reduce
in the kernel). -/
def strEndsWith (s suffix : String) : Bool :=
  List.isSuffixOf suffix.data s.data

/-- The filter of build-commands.ts line 33: keep names ending in `.json`
but not in `_commands.json`. -/
def keptFiles (files : List (String × α)) : List (String × α) :=
  files.filter (fun f => strEndsWith f.1 ".json" && !(strEndsWith f.1 "_commands.json"))

/-- The message of the exception `JSON.parse` raises on malformed input. -/
def jsonParseError : String := "SyntaxError: Unexpected token in JSON"

/-- The loop of `loadUiSchemas` (build-commands.ts lines 35-38): parse each
file — the first parse failure propagates and aborts the whole load — and
store the parsed object under `out[j.model]`. -/
def loadUiSchemasGo : List (String × Option UiSchema) → List (String × UiSchema) →
    Except String (List (String × UiSchema))
  | [], out => .ok out
  | (_, none) :: _, _ => .error jsonParseError
  | (_, some j) :: rest, out => loadUiSchemasGo rest (recordSet out (jsKey j.model) j)

/-- `loadUiSchemas` (build-commands.ts lines 32-40). A directory is a list
of `(fileName, parse result)` pairs in `readdirSync` order, where `none`
stands for a file `JSON.parse` rejects. -/
def loadUiSchemas (files : List (String × Option UiSchema)) :
    Except String (List (String × UiSchema)) :=
  loadUiSchemasGo (keptFiles files) []

/-- The effect the action callback produces (build-commands.ts lines
75-82): forward to `sendFn` when one was supplied, otherwise log. -/
inductive Effect where
  | send (model : String) (cmd_id : Nat) (settingId : Nat) (value : JSValue)
  | log (model : String) (cmd_id : Nat) (settingId : Nat) (value : JSValue)
  deriving DecidableEq, Repr

/-- The data the action callback closes over: the owning model and the
descriptor's `cmd_id` and `id`. -/
structure ActionCallback where
  model : String
  cmd_id : Nat
  settingId : Nat
  deriving DecidableEq, Repr

/-- Running the callback (build-commands.ts lines 75-82) on an event: read
`event.options[s.id.toString()]` and hand it to `sendFn` unvalidated, or
log when no `sendFn` was given. `options` is total, as JS property access
is (absent keys read as `undefined`). -/
def runCallback (c : ActionCallback) (options : String → JSValue)
    (hasSendFn : Bool) : Effect :=
  let value := options (toString c.settingId)
  if hasSendFn then .send c.model c.cmd_id c.settingId value
  else .log c.model c.cmd_id c.settingId value

/-- The single option object built for an action (build-commands.ts lines
55-70). -/
structure ActionOption where
  id : String
  type : String
  label : String
  dflt : Option JSValue
  tooltip : Option String
  choices : Option (List Choice)
  min : Option Nat
  max : Option Nat
  step : Option Nat
  range : Option Bool
  deriving DecidableEq, Repr

/-- One synthesized Companion action definition. -/
structure ActionEntry where
  name : String
  options : List ActionOption
  callback : ActionCallback
  deriving DecidableEq, Repr

/-- The option object for one descriptor (build-commands.ts lines 55-70):
base fields always; `choices` added for dropdowns that declare them;
`min`/`max`/`step` (defaulting to 1) and `range` added for numbers. -/
def mkOption (s : UiAction) : ActionOption :=
  let base : ActionOption :=
    { id := toString s.id, type := s.type, label := s.label,
      dflt := s.dflt, tooltip := s.tooltip,
      choices := none, min := none, max := none, step := none, range := none }
  if s.type = "dropdown" ∧ s.choices.isSome then
    { base with choices := s.choices }
  else if s.type = "number" then
    { base with
      min := s.min,
      max := s.max,
      step := some (s.step.getD 1),
      range := some true }
  else
    base

/-- The entry stored for one descriptor (build-commands.ts lines 72-83). -/
def mkEntry (model : String) (s : UiAction) : ActionEntry :=
  { name := "Model" ++ model ++ ": Set " ++ s.name,
    options := [mkOption s],
    callback := { model := model, cmd_id := s.cmd_id, settingId := s.id } }

/-- The loop of `buildActions` (build-commands.ts lines 49-85) over the
registry entries. A schema whose `actions` field is absent triggers
`return actions` — the accumulated table is returned at once and the
remaining models are not visited. -/
def buildActionsGo : List (String × UiSchema) → List (String × ActionEntry) →
    List (String × ActionEntry)
  | [], acc => acc
  | (model, schema) :: rest, acc =>
    match schema.actions with
    | none => acc
    | some defs =>
        buildActionsGo rest
          (defs.foldl (fun a s => recordSet a (model ++ "_" ++ toString s.id) (mkEntry model s)) acc)

/-- `buildActions` (build-commands.ts lines 42-88) applied to an already
loaded registry: the table of `(actionId, entry)` bindings, where
`actionId` is the template string `` `${model}_${s.id}` ``. -/
def buildActions (schemas : List (String × UiSchema)) : List (String × ActionEntry) :=
  buildActionsGo schemas []

/-! ## Discovery (stcontroller.ts lines 43-72) -/

/-- A discovery result record (types.ts `DeviceInfo`). -/
structure DeviceInfo where
  model : String
  ip : String
  firmware : Option String
  mac : Option String
  serial : Option String
  deriving DecidableEq, Repr

/-- The events the discovery promise can observe, in order: an inbound
datagram (carrying its source address and the model/firmware/mac fields
the regex heuristics of lines 50-62 extract from it — the heuristic text
parsing itself is kept abstract, the event carries its output), a socket
error, or the window timer firing. -/
inductive DiscEvent where
  | message (addr : String) (model : String) (firmware : Option String) (mac : Option String)
  | socketError
  | timeout
  deriving DecidableEq, Repr

/-- Final socket state of a discovery run. -/
inductive SocketState where
  | closed
  deriving DecidableEq, Repr

/-- The `DeviceInfo` the message handler builds (stcontroller.ts lines
56-62): `ip` is the datagram's source address and `serial` is always
`undefined`. -/
def infoOfMessage (addr model : String) (firmware mac : Option String) : DeviceInfo :=
  { model := model, ip := addr, firmware := firmware, mac := mac, serial := none }

/-- The discovery promise (stcontroller.ts lines 43-72) run over an event
trace: each datagram is stored under its source address
(`discovered[rinfo.address] = info`); the first timer or socket error
closes the socket and resolves with `Object.values(discovered)`. `none`
means no terminating event occurred, so the promise is still pending;
no trace makes it reject. -/
def discoverRun : List DiscEvent → List (String × DeviceInfo) →
    Option (Except String (List DeviceInfo) × SocketState)
  | [], _ => none
  | .timeout :: _, discovered => some (.ok (discovered.map Prod.snd), .closed)
  | .socketError :: _, discovered => some (.ok (discovered.map Prod.snd), .closed)
  | .message addr model fw mac :: rest, discovered =>
      discoverRun rest (recordSet discovered addr (infoOfMessage addr model fw mac))

/-- `discoverDevices` over an event trace, starting from an empty record. -/
def discoverDevices (events : List DiscEvent) :
    Option (Except String (List DeviceInfo) × SocketState) :=
  discoverRun events []

/-! ## Lemmas about the JS object model -/

/-- Folding JS assignments of a pair list into an object. -/
def recordInsertAll (m : List (String × α)) (ps : List (String × α)) : List (String × α) :=
  ps.foldl (fun a p => recordSet a p.1 p.2) m

@[simp] theorem recordInsertAll_nil (m : List (String × α)) :
    recordInsertAll m [] = m := rfl

@[simp] theorem recordInsertAll_cons (m : List (String × α)) (p : String × α)
    (ps : List (String × α)) :
    recordInsertAll m (p :: ps) = recordInsertAll (recordSet m p.1 p.2) ps := rfl

theorem recordSet_of_not_mem (m : List (String × α)) (k : String) (v : α)
    (h : k ∉ recordKeys m) : recordSet m k v = m ++ [(k, v)] := by
  induction m with
  | nil => rfl
  | cons q rest ih =>
      have hq : ¬ q.1 = k := by
        intro e
        exact h (by simp [recordKeys, e])
      have hrest : k ∉ recordKeys rest := by
        intro hk
        refine h ?_
        simp only [recordKeys, List.map_cons, List.mem_cons]
        exact Or.inr hk
      simp only [recordSet, if_neg hq, ih hrest, List.cons_append]

theorem recordKeys_recordSet_of_mem (m : List (String × α)) (k : String) (v : α)
    (hmem : k ∈ recordKeys m) : recordKeys (recordSet m k v) = recordKeys m := by
  induction m with
  | nil => simp [recordKeys] at hmem
  | cons q rest ih =>
      by_cases hq : q.1 = k
      · simp [recordSet, hq, recordKeys]
      · have hm : k ∈ recordKeys rest := by
          simp only [recordKeys, List.map_cons, List.mem_cons] at hmem
          rcases hmem with e | hm
          · exact absurd e.symm hq
          · exact hm
        simp only [recordSet, if_neg hq, recordKeys, List.map_cons] at ih ⊢
        rw [ih hm]

theorem nodup_recordKeys_recordSet (m : List (String × α)) (k : String) (v : α)
    (h : (recordKeys m).Nodup) : (recordKeys (recordSet m k v)).Nodup := by
  by_cases hmem : k ∈ recordKeys m
  · rw [recordKeys_recordSet_of_mem m k v hmem]
    exact h
  · rw [recordSet_of_not_mem m k v hmem]
    simp only [recordKeys, List.map_append, List.map_cons, List.map_nil]
    simp only [recordKeys] at h hmem
    simp [List.nodup_append, h, hmem]

theorem mem_of_mem_recordSet {m : List (String × α)} {k : String} {v : α}
    {q : String × α} (h : q ∈ recordSet m k v) : q ∈ m ∨ q = (k, v) := by
  induction m with
  | nil => simpa [recordSet] using h
  | cons p rest ih =>
      by_cases hp : p.1 = k
      · simp only [recordSet, if_pos hp, List.mem_cons] at h
        rcases h with h | h
        · right
          rw [h, ← hp]
        · left
          exact List.mem_cons_of_mem _ h
      · simp only [recordSet, if_neg hp, List.mem_cons] at h
        rcases h with h | h
        · left
          rw [h]
          exact List.mem_cons_self _ _
        · rcases ih h with h | h
          · left
            exact List.mem_cons_of_mem _ h
          · right
            exact h

theorem recordGet_recordSet_self (m : List (String × α)) (k : String) (v : α) :
    recordGet (recordSet m k v) k = some v := by
  induction m with
  | nil => simp [recordSet, recordGet]
  | cons p rest ih =>
      by_cases hp : p.1 = k
      · simp [recordSet, recordGet, hp]
      · simp [recordSet, recordGet, hp, ih]

theorem recordGet_recordSet_ne (m : List (String × α)) {k q : String} (v : α)
    (h : q ≠ k) : recordGet (recordSet m k v) q = recordGet m q := by
  induction m with
  | nil => simp [recordSet, recordGet, Ne.symm h]
  | cons p rest ih =>
      by_cases hp : p.1 = k
      · simp [recordSet, recordGet, hp, Ne.symm h]
      · by_cases hq : p.1 = q <;> simp [recordSet, recordGet, hp, hq, ih, h]

theorem recordGet_recordInsertAll (ps : List (String × α)) (m : List (String × α))
    (k : String) :
    recordGet (recordInsertAll m ps) k =
      ((ps.reverse.find? (fun p => p.1 == k)).map Prod.snd).or (recordGet m k) := by
  induction ps generalizing m with
  | nil => simp
  | cons p rest ih =>
      rw [recordInsertAll_cons, ih, List.reverse_cons, List.find?_append]
      cases hf : rest.reverse.find? (fun q => q.1 == k) with
      | some q => simp [hf, Option.or]
      | none =>
          by_cases hp : p.1 = k
          · subst hp
            simp [hf, List.find?, Option.or, recordGet_recordSet_self]
          · have hpb : (p.1 == k) = false := by simpa using hp
            simp [hf, List.find?, hpb, Option.or,
              recordGet_recordSet_ne m p.2 (fun e => hp e.symm)]

theorem nodup_recordKeys_recordInsertAll (ps : List (String × α))
    (m : List (String × α)) (h : (recordKeys m).Nodup) :
    (recordKeys (recordInsertAll m ps)).Nodup := by
  induction ps generalizing m with
  | nil => simpa
  | cons p rest ih =>
      rw [recordInsertAll_cons]
      exact ih _ (nodup_recordKeys_recordSet _ _ _ h)

theorem mem_of_mem_recordInsertAll {ps m : List (String × α)} {q : String × α}
    (h : q ∈ recordInsertAll m ps) : q ∈ m ∨ q ∈ ps := by
  induction ps generalizing m with
  | nil =>
      left
      simpa using h
  | cons p rest ih =>
      rw [recordInsertAll_cons] at h
      rcases ih h with h | h
      · rcases mem_of_mem_recordSet h with h | h
        · left
          exact h
        · right
          rw [h]
          exact List.mem_cons_self _ _
      · right
        exact List.mem_cons_of_mem _ h

theorem recordInsertAll_of_fresh (ps : List (String × α)) (m : List (String × α))
    (hfresh : ∀ p ∈ ps, p.1 ∉ recordKeys m) (hnd : (ps.map Prod.fst).Nodup) :
    recordInsertAll m ps = m ++ ps := by
  induction ps generalizing m with
  | nil => simp
  | cons p rest ih =>
      rw [recordInsertAll_cons,
        recordSet_of_not_mem _ _ _ (hfresh p (List.mem_cons_self _ _)), ih]
      · simp
      · intro q hq
        have hkeys : recordKeys (m ++ [(p.1, p.2)]) = recordKeys m ++ [p.1] := by
          simp [recordKeys]
        rw [hkeys]
        simp only [List.mem_append, List.mem_singleton]
        push_neg
        refine ⟨hfresh q (List.mem_cons_of_mem _ hq), ?_⟩
        intro hqp
        simp only [List.map_cons, List.nodup_cons] at hnd
        exact hnd.1 (hqp ▸ List.mem_map_of_mem Prod.fst hq)
      · simp only [List.map_cons, List.nodup_cons] at hnd
        exact hnd.2

/-! ## Arithmetic and CRC lemmas -/

theorem and_255_eq_mod (n : Nat) : n &&& 255 = n % 256 := by
  have h := Nat.and_pow_two_sub_one_eq_mod n 8
  norm_num at h
  omega

theorem shiftRight_and_255 (n k : Nat) : (n >>> k) &&& 255 = n / 2 ^ k % 256 := by
  rw [and_255_eq_mod, Nat.shiftRight_eq_div_pow]

theorem crc8Bit_eq_crc8RefStep (c : Nat) : crc8Bit c = crc8RefStep c := by
  have hand := Nat.and_two_pow c 7
  norm_num at hand
  have hbit : (c &&& 128 ≠ 0) ↔ Nat.testBit c 7 := by
    constructor
    · intro hne
      by_contra htb
      rw [hand] at hne
      simp [htb] at hne
    · intro htb
      rw [hand, htb]
      simp
  unfold crc8Bit crc8RefStep
  by_cases ht : Nat.testBit c 7
  · rw [if_pos (by exact_mod_cast hbit.mpr ht), if_pos ht, and_255_eq_mod]
  · rw [if_neg (fun hne => ht (hbit.mp hne)), if_neg ht, and_255_eq_mod]

theorem crc8Inner_eq (x : Nat) :
    (List.range 8).foldl (fun c _ => crc8Bit c) x = crc8RefByte x := by
  have h8 : List.range 8 = [0, 1, 2, 3, 4, 5, 6, 7] := by decide
  rw [h8]
  simp only [List.foldl]
  simp only [crc8Bit_eq_crc8RefStep]
  rfl

theorem crc8_foldl_eq_go (data : List Nat) (acc : Nat) :
    data.foldl (fun crc b => (List.range 8).foldl (fun c _ => crc8Bit c) (crc ^^^ b)) acc
      = crc8Ref.go acc data := by
  induction data generalizing acc with
  | nil => rfl
  | cons b rest ih =>
      rw [List.foldl_cons, crc8Inner_eq, ih]
      rfl

/-! ## Claim theorems: packet codec and value encoder -/

/-- C1: for the Model209 TalkbackToggle descriptor (`settingId = 0x0A`,
boolean) and value `true`, the length+data portion `sendAwaitAck` builds is
`02 0A 01` — the length byte is `dataBlock.length = 2` — which is NOT the
documented example bytes `03 0A 01` (whose length byte counts itself); the
code disagrees with the repository's own example data at this input. -/
theorem talkbackToggle_len_data_mismatch :
    lenAndData (some 0x0a) (some (.bool true)) = .ok [0x02, 0x0a, 0x01] ∧
    [0x02, 0x0a, 0x01] ≠ [0x03, 0x0a, 0x01] := by
  decide

/-- C2: `crc8DvbS2` agrees with the reference CRC-8/DVB-S2 definition
(initial value 0, per byte XOR then 8 MSB-first shift/XOR-`0xD5` steps
masked to 8 bits) on every input sequence, and the checksum of the single
all-zero byte is `0x00`. -/
theorem crc8DvbS2_matches_reference :
    (∀ data : List Nat, crc8DvbS2 data = crc8Ref data) ∧ crc8DvbS2 [0] = 0 := by
  constructor
  · intro data
    exact crc8_foldl_eq_go data 0
  · decide

/-- C3: for every call whose `cmdId` equals the mic-pre-bus command id,
the payload body carries exactly one extra `0x00` byte immediately after
the command id, for every setting id and value; for every other `cmdId`
the body is the same list without that byte. -/
theorem micPreBus_extra_byte (cmdMicPreBus cmdId : Nat) (settingId : Option Nat)
    (value : Option JSValue) (addLen : Bool) :
    (cmdId = cmdMicPreBus →
      payloadBodyOf cmdMicPreBus cmdId settingId value addLen =
        (dataBlockOf settingId value).map
          (fun d => [0x5a, cmdId &&& 0xff, 0x00] ++ (if addLen then [d.length] else []) ++ d)) ∧
    (cmdId ≠ cmdMicPreBus →
      payloadBodyOf cmdMicPreBus cmdId settingId value addLen =
        (dataBlockOf settingId value).map
          (fun d => [0x5a, cmdId &&& 0xff] ++ (if addLen then [d.length] else []) ++ d)) := by
  constructor <;> intro h <;> cases hd : dataBlockOf settingId value <;>
    cases addLen <;> simp [payloadBodyOf, hd, h, Except.map]

/-- Witness for C3 at the mic-pre gain setting (`cmdId = settingId = 18`
on the mic-pre side, `cmdId = 13` on the other): both hypotheses are
satisfiable and the theorem applies. -/
theorem micPreBus_extra_byte_witness :
    payloadBodyOf 18 18 (some 0x0d) (some (.num 36)) true =
      (dataBlockOf (some 0x0d) (some (.num 36))).map
        (fun d => [0x5a, 18 &&& 0xff, 0x00] ++ (if true then [d.length] else []) ++ d) ∧
    payloadBodyOf 18 13 (some 0x0a) (some (.bool true)) true =
      (dataBlockOf (some 0x0a) (some (.bool true))).map
        (fun d => [0x5a, 13 &&& 0xff] ++ (if true then [d.length] else []) ++ d) :=
  ⟨(micPreBus_extra_byte 18 18 (some 0x0d) (some (.num 36)) true).1 rfl,
   (micPreBus_extra_byte 18 13 (some 0x0a) (some (.bool true)) true).2 (by decide)⟩

/-- C4 (counterexample): the claim's worked example is wrong on the code:
65280 = 0x00FF00, so its low 24 bits most-significant first are
`[0x00, 0xFF, 0x00]`, not the claimed `[0xFF, 0x00, 0x00]`. -/
theorem buildValueBytes_65280_counterexample :
    buildValueBytes (.num 65280) = .ok [0x00, 0xff, 0x00] ∧
    (Except.ok [0x00, 0xff, 0x00] : Except String (List Nat)) ≠ .ok [0xff, 0x00, 0x00] := by
  decide

/-- C4 (amended): `buildValueBytes` is a total case analysis on the
value's shape: booleans give `[1]`/`[0]`; a number at most 255 gives that
byte; a number above 255 gives the three bytes of its low 24 bits
most-significant first (65280 = 0x00FF00 gives `[0x00, 0xFF, 0x00]`); an
array gives each element masked to its low 8 bits in order; exactly the
remaining shapes (`null`, `undefined`, strings) raise the
unsupported-value-type error. -/
theorem buildValueBytes_cases :
    buildValueBytes (.bool true) = .ok [0x01] ∧
    buildValueBytes (.bool false) = .ok [0x00] ∧
    (∀ n : Nat, n ≤ 255 → buildValueBytes (.num n) = .ok [n]) ∧
    (∀ n : Nat, n > 255 →
      buildValueBytes (.num n) = .ok [n / 2 ^ 16 % 256, n / 2 ^ 8 % 256, n % 256]) ∧
    buildValueBytes (.num 65280) = .ok [0x00, 0xff, 0x00] ∧
    (∀ ns : List Nat, buildValueBytes (.arr ns) = .ok (ns.map (fun v => v &&& 0xff))) ∧
    (∀ v : JSValue, (∃ e, buildValueBytes v = .error e) ↔
      v = .null ∨ v = .undef ∨ ∃ s, v = .str s) := by
  refine ⟨rfl, rfl, ?_, ?_, by decide, fun ns => rfl, ?_⟩
  · intro n hn
    have hgt : ¬ n > 255 := by omega
    simp only [buildValueBytes, if_neg hgt]
    rw [and_255_eq_mod, Nat.mod_eq_of_lt (by omega)]
  · intro n hn
    simp only [buildValueBytes, if_pos hn]
    rw [shiftRight_and_255, shiftRight_and_255, and_255_eq_mod]
  · intro v
    cases v with
    | bool b => simp [buildValueBytes]
    | num n => by_cases h : n > 255 <;> simp [buildValueBytes, h]
    | arr ns => simp [buildValueBytes]
    | str s => simp [buildValueBytes]
    | null => simp [buildValueBytes]
    | undef => simp [buildValueBytes]

/-- Witness for C4: the hypotheses of the bounded cases are satisfiable
(n = 255 and n = 65280). -/
theorem buildValueBytes_cases_witness :
    (255 : Nat) ≤ 255 ∧ buildValueBytes (.num 255) = .ok [255] ∧
    (65280 : Nat) > 255 ∧
    buildValueBytes (.num 65280) = .ok [65280 / 2 ^ 16 % 256, 65280 / 2 ^ 8 % 256, 65280 % 256] :=
  ⟨by decide, buildValueBytes_cases.2.2.1 255 (by decide),
   by decide, buildValueBytes_cases.2.2.2.1 65280 (by decide)⟩

/-- C5: byte index 3 of every packet `sendAwaitAck` builds equals
`(24 + length of the payload body with checksum) mod 256`; oversized
lengths wrap silently (the builder still succeeds, only the low byte is
stored). -/
theorem packet_length_byte (cmdMicPreBus cmdId : Nat) (settingId : Option Nat)
    (value : Option JSValue) (addLen : Bool) (pkt body : List Nat)
    (hp : packetOf cmdMicPreBus cmdId settingId value addLen = .ok pkt)
    (hb : payloadWithCrcOf cmdMicPreBus cmdId settingId value addLen = .ok body) :
    pkt.get? 3 = some ((24 + body.length) % 256) := by
  cases h : payloadWithCrcOf cmdMicPreBus cmdId settingId value addLen with
  | error e =>
      rw [h] at hb
      exact absurd hb (by simp)
  | ok b =>
      rw [h] at hb
      have hbody : b = body := by
        injection hb
      subst hbody
      have hok : packetOf cmdMicPreBus cmdId settingId value addLen =
          .ok (buildHeader (24 + b.length) ++ b) := by
        unfold packetOf
        rw [h]
        rfl
      rw [hok] at hp
      have hpkt : buildHeader (24 + b.length) ++ b = pkt := by
        injection hp
      rw [← hpkt]
      simp only [buildHeader, List.cons_append, List.get?]
      rw [and_255_eq_mod]

/-- Witness for C5: a concrete TalkbackToggle-style packet; the theorem's
hypotheses hold and the length byte is 30 = (24 + 6) mod 256. -/
theorem packet_length_byte_witness :
    packetOf 18 13 (some 10) (some (.bool true)) true =
      .ok ([0xff, 0xff, 0x00, 30, 0x07, 0xe1, 0x00, 0x00,
            0x90, 0xb1, 0x1c, 0x5b, 0xd2, 0x85, 0x00, 0x00,
            0x53, 0x74, 0x75, 0x64, 0x69, 0x6f, 0x2d, 0x54] ++
           [0x5a, 13, 2, 10, 1, 124]) ∧
    payloadWithCrcOf 18 13 (some 10) (some (.bool true)) true =
      .ok [0x5a, 13, 2, 10, 1, 124] ∧
    ([0xff, 0xff, 0x00, 30, 0x07, 0xe1, 0x00, 0x00,
      0x90, 0xb1, 0x1c, 0x5b, 0xd2, 0x85, 0x00, 0x00,
      0x53, 0x74, 0x75, 0x64, 0x69, 0x6f, 0x2d, 0x54] ++
     [0x5a, 13, 2, 10, 1, 124]).get? 3 =
      some ((24 + ([0x5a, 13, 2, 10, 1, 124] : List Nat).length) % 256) :=
  ⟨by decide, by decide,
   packet_length_byte 18 13 (some 10) (some (.bool true)) true
     ([0xff, 0xff, 0x00, 30, 0x07, 0xe1, 0x00, 0x00,
       0x90, 0xb1, 0x1c, 0x5b, 0xd2, 0x85, 0x00, 0x00,
       0x53, 0x74, 0x75, 0x64, 0x69, 0x6f, 0x2d, 0x54] ++
      [0x5a, 13, 2, 10, 1, 124])
     [0x5a, 13, 2, 10, 1, 124] (by decide) (by decide)⟩

/-! ## Claim theorems: schema registry and table builder -/

/-- The `(actionId, entry)` pairs one schema's `actions` array contributes
to the table, in order. -/
def actionPairsOf (model : String) (defs : List UiAction) : List (String × ActionEntry) :=
  defs.map (fun s => (model ++ "_" ++ toString s.id, mkEntry model s))

/-- One `(actionId, entry)` pair per `(model, descriptor)` pair of the
registry, in registry order. -/
def actionTableOf (schemas : List (String × UiSchema)) : List (String × ActionEntry) :=
  (schemas.map (fun p => actionPairsOf p.1 ((p.2).actions.getD []))).flatten

/-- The Model207 MainButtonMode descriptor as `buildActions` reads it
(`cmd_id = 7`, setting id `0x10 = 16`, dropdown with declared choices). -/
def mainButtonMode : UiAction :=
  { name := "Main Button Mode", type := "dropdown", label := "Main Button Mode",
    dflt := some (.str "push_to_talk"), tooltip := none,
    choices := some [{ id := .num 0, label := "Push to Mute" },
                     { id := .num 1, label := "Push to Talk" }],
    min := none, max := none, step := none, cmd_id := 7, id := 16 }

theorem buildActionsGo_of_defined (schemas : List (String × UiSchema))
    (acc : List (String × ActionEntry))
    (hdef : ∀ p ∈ schemas, ((p.2).actions).isSome)
    (hnd : (recordKeys acc ++ recordKeys (actionTableOf schemas)).Nodup) :
    buildActionsGo schemas acc = acc ++ actionTableOf schemas := by
  induction schemas generalizing acc with
  | nil => simp [buildActionsGo, actionTableOf]
  | cons p rest ih =>
      obtain ⟨m, sch⟩ := p
      cases hs : sch.actions with
      | none =>
          have := hdef (m, sch) (List.mem_cons_self _ _)
          rw [hs] at this
          exact absurd this (by simp)
      | some defs =>
          have htable : actionTableOf ((m, sch) :: rest) =
              actionPairsOf m defs ++ actionTableOf rest := by
            simp [actionTableOf, hs]
          rw [htable] at hnd
          have hkeys : recordKeys (actionPairsOf m defs ++ actionTableOf rest) =
              recordKeys (actionPairsOf m defs) ++ recordKeys (actionTableOf rest) := by
            simp [recordKeys]
          rw [hkeys, ← List.append_assoc] at hnd
          have hnd1 : (recordKeys acc ++ recordKeys (actionPairsOf m defs)).Nodup :=
            hnd.sublist (List.sublist_append_left _ _) |>.sublist (List.Sublist.refl _)
          have hfold : defs.foldl
              (fun a s => recordSet a (m ++ "_" ++ toString s.id) (mkEntry m s)) acc =
              recordInsertAll acc (actionPairsOf m defs) := by
            rw [recordInsertAll, actionPairsOf, List.foldl_map]
          have hfresh : ∀ q ∈ actionPairsOf m defs, q.1 ∉ recordKeys acc := by
            intro q hq hmem
            have hdisj := (List.nodup_append.mp hnd1).2.2
            exact hdisj hmem (List.mem_map_of_mem Prod.fst hq)
          have hndp : ((actionPairsOf m defs).map Prod.fst).Nodup :=
            (List.nodup_append.mp hnd1).2.1
          rw [show buildActionsGo ((m, sch) :: rest) acc = buildActionsGo rest
                (defs.foldl (fun a s =>
                  recordSet a (m ++ "_" ++ toString s.id) (mkEntry m s)) acc) by
              simp [buildActionsGo, hs],
            hfold, recordInsertAll_of_fresh _ _ hfresh hndp,
            ih (acc ++ actionPairsOf m defs)
              (fun q hq => hdef q (List.mem_cons_of_mem _ hq))
              (by
                have hk2 : recordKeys (acc ++ actionPairsOf m defs) =
                    recordKeys acc ++ recordKeys (actionPairsOf m defs) := by
                  simp [recordKeys]
                rw [hk2]
                exact hnd),
            List.append_assoc, htable]

/-- C6 (counterexample): for a registry with the single Model207
MainButtonMode pair the synthesized id is `Model207_16` — model and
settingId joined by an underscore, without the command id — not
`Model207:7:16`; and when an earlier schema lacks an `actions` array the
builder returns early and the later model's pair is skipped entirely
(empty table despite one pair in the registry). -/
theorem buildActions_id_and_skip_counterexample :
    buildActions [("Model207", { model := some "Model207", actions := some [mainButtonMode] })] =
      [("Model207_16", mkEntry "Model207" mainButtonMode)] ∧
    ("Model207_16" : String) ≠ "Model207:7:16" ∧
    buildActions [("A", { model := some "A", actions := none }),
      ("Model207", { model := some "Model207", actions := some [mainButtonMode] })] = [] := by
  decide

/-- C6 (amended): provided every loaded schema has an `actions` array and
the composite ids do not collide, `buildActions` synthesizes exactly one
entry per `(model, descriptor)` pair, in registry order, and each entry's
id is the composite `model_settingId` (underscore-joined, command id not
included). -/
theorem buildActions_one_entry_per_pair (schemas : List (String × UiSchema))
    (hdef : ∀ p ∈ schemas, ((p.2).actions).isSome)
    (hnd : (recordKeys (actionTableOf schemas)).Nodup) :
    buildActions schemas = actionTableOf schemas := by
  rw [buildActions, buildActionsGo_of_defined schemas [] hdef (by simpa [recordKeys] using hnd)]
  simp

/-- Witness for C6: the single-schema registry satisfies both hypotheses
and the amended theorem applies. -/
theorem buildActions_one_entry_per_pair_witness :
    (∀ p ∈ [("Model207",
        ({ model := some "Model207", actions := some [mainButtonMode] } : UiSchema))],
      ((p.2).actions).isSome) ∧
    buildActions [("Model207", { model := some "Model207", actions := some [mainButtonMode] })] =
      actionTableOf
        [("Model207", { model := some "Model207", actions := some [mainButtonMode] })] :=
  ⟨by decide,
   buildActions_one_entry_per_pair
     [("Model207", { model := some "Model207", actions := some [mainButtonMode] })]
     (by decide) (by decide)⟩

/-- C7 (counterexample): the MainButtonMode action is a dropdown whose
declared choices are 0 and 1; invoking its callback with the value 7 —
not among the choices — raises no validation error and the value is
forwarded to `sendFn` as-is: something IS sent. -/
theorem invoke_no_validation_counterexample :
    (mkOption mainButtonMode).choices =
      some [{ id := .num 0, label := "Push to Mute" },
            { id := .num 1, label := "Push to Talk" }] ∧
    (∀ c ∈ [Choice.mk (.num 0) "Push to Mute", Choice.mk (.num 1) "Push to Talk"],
      c.id ≠ .num 7) ∧
    runCallback (mkEntry "Model207" mainButtonMode).callback (fun _ => .num 7) true =
      .send "Model207" 7 16 (.num 7) := by
  decide

/-- C7 (amended): the callback performs no validation at all: for every
value shape, including values outside the declared choices, it reads
`event.options[settingId]` and delegates it unchanged to `sendFn` (or
logs when no `sendFn` was supplied); no error path exists. -/
theorem invoke_delegates_unvalidated (model : String) (s : UiAction)
    (options : String → JSValue) (hasSendFn : Bool) :
    runCallback (mkEntry model s).callback options hasSendFn =
      if hasSendFn then .send model s.cmd_id s.id (options (toString s.id))
      else .log model s.cmd_id s.id (options (toString s.id)) := by
  cases hasSendFn <;> rfl

theorem keptFiles_map_some (fs : List (String × UiSchema)) :
    keptFiles (fs.map (fun p => (p.1, some p.2))) =
      (keptFiles fs).map (fun p => (p.1, some p.2)) := by
  induction fs with
  | nil => rfl
  | cons p rest ih =>
      unfold keptFiles at ih ⊢
      rw [List.map_cons, List.filter_cons, List.filter_cons]
      cases h : strEndsWith p.1 ".json" && !(strEndsWith p.1 "_commands.json") <;>
        simp [h, ih]

theorem loadUiSchemasGo_all_some (ps : List (String × UiSchema))
    (out : List (String × UiSchema)) :
    loadUiSchemasGo (ps.map (fun p => (p.1, some p.2))) out =
      .ok (recordInsertAll out (ps.map (fun p => (jsKey p.2.model, p.2)))) := by
  induction ps generalizing out with
  | nil => rfl
  | cons p rest ih =>
      rw [List.map_cons]
      show loadUiSchemasGo ((p.1, some p.2) :: _) out = _
      rw [loadUiSchemasGo, ih]
      simp

theorem loadUiSchemasGo_error (ps : List (String × Option UiSchema))
    (out : List (String × UiSchema)) (h : ∃ p ∈ ps, p.2 = none) :
    loadUiSchemasGo ps out = .error jsonParseError := by
  induction ps generalizing out with
  | nil => simp at h
  | cons q rest ih =>
      obtain ⟨a, b⟩ := q
      cases b with
      | none => rfl
      | some j =>
          rcases h with ⟨p, hp, hnone⟩
          rcases List.mem_cons.mp hp with he | hmem
          · rw [he] at hnone
            simp at hnone
          · exact (by rw [loadUiSchemasGo]; exact ih _ ⟨p, hmem, hnone⟩)

/-- C8 (counterexample): a directory whose single file parses but lacks a
`model` field loads successfully — the schema is registered under the key
"undefined" — instead of failing the whole load. -/
theorem loadUiSchemas_missing_model_counterexample :
    loadUiSchemas [("a.json", some { model := none, actions := none })] =
      .ok [("undefined", { model := none, actions := none })] := by
  decide

/-- C8 (amended): the load fails as a whole — registering nothing — when
any kept file (`.json` but not `*_commands.json`) is not valid structured
data; a kept file that parses is always registered, a missing `model`
field merely keys it under "undefined"; when every kept file parses and
their model keys are distinct the registry holds exactly one entry per
kept file, keyed by that file's model value, with `*_commands.json` files
excluded. -/
theorem loadUiSchemas_amended :
    (∀ files : List (String × Option UiSchema),
      (∃ p ∈ keptFiles files, p.2 = none) →
      loadUiSchemas files = .error jsonParseError) ∧
    (∀ fs : List (String × UiSchema),
      ((keptFiles fs).map (fun p => jsKey p.2.model)).Nodup →
      loadUiSchemas (fs.map (fun p => (p.1, some p.2))) =
        .ok ((keptFiles fs).map (fun p => (jsKey p.2.model, p.2)))) := by
  constructor
  · intro files h
    rw [loadUiSchemas]
    exact loadUiSchemasGo_error _ _ h
  · intro fs hnd
    rw [loadUiSchemas, keptFiles_map_some, loadUiSchemasGo_all_some]
    rw [recordInsertAll_of_fresh _ _ (by simp [recordKeys]) (by simpa [List.map_map])]
    simp

/-- Witness for C8: both hypotheses are satisfiable — a directory with one
malformed file fails as a whole, and a directory with two well-formed
model files plus one excluded `*_commands.json` file yields exactly the
two model-keyed entries. -/
theorem loadUiSchemas_amended_witness :
    loadUiSchemas [("a.json", none),
      ("b.json", some { model := some "Model232", actions := none })] =
      .error jsonParseError ∧
    loadUiSchemas
      [("m1.json", some ({ model := some "Model232", actions := none } : UiSchema)),
       ("x_commands.json", some ({ model := some "X", actions := none } : UiSchema)),
       ("m2.json", some ({ model := some "Model234", actions := none } : UiSchema))] =
      .ok [("Model232", { model := some "Model232", actions := none }),
           ("Model234", { model := some "Model234", actions := none })] :=
  ⟨loadUiSchemas_amended.1
     [("a.json", none), ("b.json", some { model := some "Model232", actions := none })]
     (by decide),
   loadUiSchemas_amended.2
     [("m1.json", { model := some "Model232", actions := none }),
      ("x_commands.json", { model := some "X", actions := none }),
      ("m2.json", { model := some "Model234", actions := none })]
     (by decide)⟩

theorem find?_jsKey_map (l : List (String × UiSchema)) (k : String) :
    ((l.map (fun p => (jsKey p.2.model, p.2))).find? (fun p => p.1 == k)).map Prod.snd =
      (l.find? (fun p => jsKey p.2.model == k)).map Prod.snd := by
  induction l with
  | nil => rfl
  | cons p rest ih =>
      by_cases h : jsKey p.2.model = k
      · simp [List.find?, h]
      · have hb : (jsKey p.2.model == k) = false := by simpa using h
        simpa [List.find?, hb] using ih

/-- C10: loading a directory of parseable files keeps, for each model key,
only the schema of the last kept file declaring that key — a duplicate
`model` silently overwrites, a missing `model` registers under the key
"undefined" — so the registry holds at most one entry per key rather than
one per file. -/
theorem loadUiSchemas_last_wins (fs : List (String × UiSchema))
    (out : List (String × UiSchema))
    (h : loadUiSchemas (fs.map (fun p => (p.1, some p.2))) = .ok out) :
    jsKey none = "undefined" ∧
    (recordKeys out).Nodup ∧
    ∀ k, recordGet out k =
      ((keptFiles fs).reverse.find? (fun p => jsKey p.2.model == k)).map Prod.snd := by
  rw [loadUiSchemas, keptFiles_map_some, loadUiSchemasGo_all_some] at h
  have hout : out = recordInsertAll [] ((keptFiles fs).map (fun p => (jsKey p.2.model, p.2))) := by
    injection h with h
    exact h.symm
  refine ⟨rfl, ?_, ?_⟩
  · rw [hout]
    exact nodup_recordKeys_recordInsertAll _ _ (by simp [recordKeys])
  · intro k
    rw [hout, recordGet_recordInsertAll]
    have hrev : (List.map (fun p => (jsKey p.2.model, p.2)) (keptFiles fs)).reverse =
        (keptFiles fs).reverse.map (fun p => (jsKey p.2.model, p.2)) := by
      simp
    rw [hrev, find?_jsKey_map ((keptFiles fs).reverse) k]
    simp [recordGet]

/-- Witness for C10: a concrete directory with two files declaring model
"ModelX" and one file without a `model` field; the load succeeds, the keys
are distinct, and the "ModelX" entry is the later file's schema. -/
theorem loadUiSchemas_last_wins_witness :
    loadUiSchemas
      [("a.json", some ({ model := some "ModelX", actions := none } : UiSchema)),
       ("b.json", some ({ model := some "ModelX", actions := some [] } : UiSchema)),
       ("c.json", some ({ model := none, actions := none } : UiSchema))] =
      .ok [("ModelX", { model := some "ModelX", actions := some [] }),
           ("undefined", { model := none, actions := none })] ∧
    (recordKeys [("ModelX", ({ model := some "ModelX", actions := some [] } : UiSchema)),
      ("undefined", { model := none, actions := none })]).Nodup ∧
    recordGet [("ModelX", ({ model := some "ModelX", actions := some [] } : UiSchema)),
        ("undefined", { model := none, actions := none })] "ModelX" =
      ((keptFiles
        [("a.json", ({ model := some "ModelX", actions := none } : UiSchema)),
         ("b.json", { model := some "ModelX", actions := some [] }),
         ("c.json", { model := none, actions := none })]).reverse.find?
          (fun p => jsKey p.2.model == "ModelX")).map Prod.snd :=
  ⟨by decide,
   (loadUiSchemas_last_wins
     [("a.json", { model := some "ModelX", actions := none }),
      ("b.json", { model := some "ModelX", actions := some [] }),
      ("c.json", { model := none, actions := none })]
     [("ModelX", { model := some "ModelX", actions := some [] }),
      ("undefined", { model := none, actions := none })] (by decide)).2.1,
   (loadUiSchemas_last_wins
     [("a.json", { model := some "ModelX", actions := none }),
      ("b.json", { model := some "ModelX", actions := some [] }),
      ("c.json", { model := none, actions := none })]
     [("ModelX", { model := some "ModelX", actions := some [] }),
      ("undefined", { model := none, actions := none })] (by decide)).2.2 "ModelX"⟩

/-! ## Claim theorems: discovery -/

/-- Whether an event stops the collection window (timer expiry or socket
error). -/
def isTerminator : DiscEvent → Bool
  | .socketError => true
  | .timeout => true
  | _ => false

/-- The `(source address, record)` pairs of the datagrams received before
the first terminating event. -/
def msgPairs : List DiscEvent → List (String × DeviceInfo)
  | .message addr model fw mac :: rest =>
      (addr, infoOfMessage addr model fw mac) :: msgPairs rest
  | _ => []

/-- Modelled from the spec: the record of the last reply whose source
address is `addr`, among the replies received before the first terminating
event ("a later reply replacing the earlier record"). -/
def lastReplyFor (events : List DiscEvent) (addr : String) : Option DeviceInfo :=
  ((msgPairs events).reverse.find? (fun p => p.1 == addr)).map Prod.snd

theorem discoverRun_resolves (events : List DiscEvent)
    (acc : List (String × DeviceInfo)) (h : ∃ e ∈ events, isTerminator e) :
    discoverRun events acc =
      some (.ok ((recordInsertAll acc (msgPairs events)).map Prod.snd), .closed) := by
  induction events generalizing acc with
  | nil => simp at h
  | cons e rest ih =>
      cases e with
      | message a m f mc =>
          have hrest : ∃ e ∈ rest, isTerminator e := by
            rcases h with ⟨e, he, ht⟩
            rcases List.mem_cons.mp he with he | he
            · rw [he] at ht
              simp [isTerminator] at ht
            · exact ⟨e, he, ht⟩
          rw [discoverRun, ih _ hrest]
          rfl
      | socketError => rfl
      | timeout => rfl

theorem msgPairs_ip (events : List DiscEvent) :
    ∀ p ∈ msgPairs events, (p.2).ip = p.1 := by
  induction events with
  | nil =>
      intro p hp
      simp [msgPairs] at hp
  | cons e rest ih =>
      cases e with
      | message a m f mc =>
          intro p hp
          rcases List.mem_cons.mp hp with he | hmem
          · rw [he]
            rfl
          · exact ih p hmem
      | socketError =>
          intro p hp
          simp [msgPairs] at hp
      | timeout =>
          intro p hp
          simp [msgPairs] at hp

theorem find?_ip_eq_recordGet (m : List (String × DeviceInfo)) (addr : String)
    (hip : ∀ p ∈ m, (p.2).ip = p.1) :
    (m.map Prod.snd).find? (fun i => i.ip == addr) = recordGet m addr := by
  induction m with
  | nil => rfl
  | cons p rest ih =>
      have hp := hip p (List.mem_cons_self _ _)
      by_cases h : p.1 = addr
      · simp [List.find?, recordGet, hp, h]
      · have hb : ((p.2).ip == addr) = false := by
          rw [hp]
          simpa using h
        simp [List.find?, recordGet, hb, h,
          ih (fun q hq => hip q (List.mem_cons_of_mem _ hq))]

/-- C9: whenever the trace contains a window expiry or a socket error,
`discoverDevices` resolves successfully (never rejects) with the socket
closed, carrying the records accumulated so far: their source IPs are
pairwise distinct (deduplicated by source IP) and the record for each IP
is the one parsed from the last reply received from that IP before the
terminating event. -/
theorem discoverDevices_never_rejects (events : List DiscEvent)
    (h : ∃ e ∈ events, isTerminator e) :
    ∃ infos : List DeviceInfo,
      discoverDevices events = some (.ok infos, .closed) ∧
      (infos.map DeviceInfo.ip).Nodup ∧
      ∀ addr, infos.find? (fun i => i.ip == addr) = lastReplyFor events addr := by
  refine ⟨(recordInsertAll [] (msgPairs events)).map Prod.snd,
    discoverRun_resolves events [] h, ?_, ?_⟩
  all_goals
    have hip : ∀ p ∈ recordInsertAll ([] : List (String × DeviceInfo)) (msgPairs events),
        (p.2).ip = p.1 := by
      intro p hp
      rcases mem_of_mem_recordInsertAll hp with hp | hp
      · simp at hp
      · exact msgPairs_ip events p hp
  · have hmap : (recordInsertAll ([] : List (String × DeviceInfo))
        (msgPairs events)).map (fun p => (p.2).ip) =
        recordKeys (recordInsertAll [] (msgPairs events)) := by
      rw [recordKeys]
      exact List.map_congr_left (fun p hp => hip p hp)
    rw [List.map_map]
    have : (DeviceInfo.ip ∘ Prod.snd) = fun p : String × DeviceInfo => (p.2).ip := rfl
    rw [this, hmap]
    exact nodup_recordKeys_recordInsertAll _ _ (by simp [recordKeys])
  · intro addr
    rw [find?_ip_eq_recordGet _ addr hip, recordGet_recordInsertAll, lastReplyFor]
    simp [recordGet]

/-- Witness for C9: a concrete trace with two replies from the same IP, a
reply from another IP and a window expiry; the hypothesis holds and the
theorem applies. -/
theorem discoverDevices_never_rejects_witness :
    (∃ e ∈ [DiscEvent.message "10.0.0.5" "Model207" none none,
            DiscEvent.message "10.0.0.5" "Model209" (some "1.2.3") none,
            DiscEvent.message "10.0.0.9" "Model391" none none,
            DiscEvent.timeout], isTerminator e) ∧
    (∃ infos : List DeviceInfo,
      discoverDevices [DiscEvent.message "10.0.0.5" "Model207" none none,
        DiscEvent.message "10.0.0.5" "Model209" (some "1.2.3") none,
        DiscEvent.message "10.0.0.9" "Model391" none none,
        DiscEvent.timeout] = some (.ok infos, .closed) ∧
      (infos.map DeviceInfo.ip).Nodup ∧
      ∀ addr, infos.find? (fun i => i.ip == addr) =
        lastReplyFor [DiscEvent.message "10.0.0.5" "Model207" none none,
          DiscEvent.message "10.0.0.5" "Model209" (some "1.2.3") none,
          DiscEvent.message "10.0.0.9" "Model391" none none,
          DiscEvent.timeout] addr) :=
  ⟨by decide,
   discoverDevices_never_rejects
     [DiscEvent.message "10.0.0.5" "Model207" none none,
      DiscEvent.message "10.0.0.5" "Model209" (some "1.2.3") none,
      DiscEvent.message "10.0.0.9" "Model391" none none,
      DiscEvent.timeout] (by decide)⟩

end StudioTech
